import Mathlib

/-!
Verification development for the rust-wallet-simple repository
(src/src/lib.rs), a shallow embedding of its transaction data model,
balance calculation and history rendering, together with theorems
settling the specified properties.
-/

/-- Types of transactions supported by the wallet system
(`enum TransactionType`, src/src/lib.rs lines 17-22). -/
inductive TransactionType where
  | Deposit
  | Withdrawal
  deriving DecidableEq, Repr

/-- A single transaction in the wallet system
(`struct Transaction`, src/src/lib.rs lines 36-43).
Rust's `i64` is embedded as `Int`; the program's arithmetic
(small sums of user-entered amounts) never nears the `i64` bounds. -/
structure Transaction where
  transaction_type : TransactionType
  wallet_address : String
  amount : Int
  deriving DecidableEq, Repr

/-- Error types for wallet operations
(`enum WalletError`, src/src/lib.rs lines 58-68). -/
inductive WalletError where
  | InvalidAmount (amount : Int)
  | InsufficientFunds (requested : Int) (available : Int)
  deriving DecidableEq, Repr

/-- Rendering of a transaction type, following
`impl fmt::Display for TransactionType` (src/src/lib.rs lines 25-32). -/
def TransactionType.render : TransactionType → String
  | .Deposit => "Deposit"
  | .Withdrawal => "Withdrawal"

/-- Rendering of a transaction, following
`impl fmt::Display for Transaction` (src/src/lib.rs lines 46-54):
the format string `"{} of {} to {}"` applied to the transaction type,
the amount and the wallet address. -/
def Transaction.render (tx : Transaction) : String :=
  tx.transaction_type.render ++ " of " ++ toString tx.amount ++ " to " ++ tx.wallet_address

/-- One iteration of the loop body of `calculate_wallet_balance`
(src/src/lib.rs lines 122-154): reject a negative amount, add a deposit,
and for a withdrawal check sufficiency before subtracting. -/
def processTx (balance : Int) (tx : Transaction) : Except WalletError Int :=
  if tx.amount < 0 then
    .error (.InvalidAmount tx.amount)
  else
    match tx.transaction_type with
    | .Deposit => .ok (balance + tx.amount)
    | .Withdrawal =>
      if balance < tx.amount then
        .error (.InsufficientFunds tx.amount balance)
      else
        .ok (balance - tx.amount)

/-- The loop of `calculate_wallet_balance` over the already-filtered
transaction list, threading the mutable `balance` and returning early
on the first validation failure. -/
def balanceFold (balance : Int) : List Transaction → Except WalletError Int
  | [] => .ok balance
  | tx :: rest =>
    match processTx balance tx with
    | .ok b => balanceFold b rest
    | .error e => .error e

/-- `calculate_wallet_balance` (src/src/lib.rs lines 113-158):
filter the transactions to those of the given wallet and fold them
from balance `0`, validating each record. -/
def calculate_wallet_balance (transactions : List Transaction)
    (wallet_address : String) : Except WalletError Int :=
  balanceFold 0 (transactions.filter (fun tx => tx.wallet_address == wallet_address))

/-- The unvalidated balance update of `print_transaction_history`
(src/src/lib.rs lines 171-174): deposits add, withdrawals subtract,
with no checks of any kind. -/
def historyStep (balance : Int) (tx : Transaction) : Int :=
  match tx.transaction_type with
  | .Deposit => balance + tx.amount
  | .Withdrawal => balance - tx.amount

/-- The loop of `print_transaction_history` over the filtered list:
each transaction is paired with the running balance after applying it. -/
def historyFold (balance : Int) : List Transaction → List (Transaction × Int)
  | [] => []
  | tx :: rest =>
    (tx, historyStep balance tx) :: historyFold (historyStep balance tx) rest

/-- `print_transaction_history` (src/src/lib.rs lines 165-177), as the
sequence of (transaction, running balance) lines it prints for the
given wallet, in insertion order. -/
def print_transaction_history (transactions : List Transaction)
    (wallet_address : String) : List (Transaction × Int) :=
  historyFold 0 (transactions.filter (fun tx => tx.wallet_address == wallet_address))

/-- Signed contribution of one transaction as applied by the
history-rendering fold. -/
def signedAmount (tx : Transaction) : Int :=
  match tx.transaction_type with
  | .Deposit => tx.amount
  | .Withdrawal => -tx.amount

/-- The running balance printed on the last line of the transaction
history, `0` when the history is empty. -/
def lastRunningBalance (transactions : List Transaction)
    (wallet_address : String) : Int :=
  (((print_transaction_history transactions wallet_address).map Prod.snd).getLast?).getD 0

/-! ### Helper lemmas -/

/-- The validating fold splits across list append: the second part runs
from the balance the first part reached, and an error in the first part
short-circuits. -/
theorem balanceFold_append (s : Int) (l1 l2 : List Transaction) :
    balanceFold s (l1 ++ l2) =
      match balanceFold s l1 with
      | .ok b => balanceFold b l2
      | .error e => .error e := by
  induction l1 generalizing s with
  | nil => rfl
  | cons tx rest ih =>
    simp only [List.cons_append, balanceFold]
    cases processTx s tx with
    | ok b => exact ih b
    | error e => rfl

/-- A successful step of the validating loop keeps the balance non-negative. -/
theorem processTx_nonneg {b : Int} {tx : Transaction} {b' : Int}
    (hb : 0 ≤ b) (h : processTx b tx = .ok b') : 0 ≤ b' := by
  by_cases hamt : tx.amount < 0
  · simp [processTx, hamt] at h
  · cases htx : tx.transaction_type
    · simp [processTx, hamt, htx] at h
      omega
    · by_cases hlt : b < tx.amount
      · simp [processTx, hamt, htx, hlt] at h
      · simp [processTx, hamt, htx, hlt] at h
        omega

/-- A successful validating fold from a non-negative balance ends
non-negative. -/
theorem balanceFold_nonneg {s : Int} {l : List Transaction} {b : Int}
    (hs : 0 ≤ s) (h : balanceFold s l = .ok b) : 0 ≤ b := by
  induction l generalizing s with
  | nil =>
    cases h
    exact hs
  | cons tx rest ih =>
    unfold balanceFold at h
    cases hp : processTx s tx with
    | ok b1 =>
      rw [hp] at h
      exact ih (processTx_nonneg hs hp) h
    | error e =>
      rw [hp] at h
      cases h

/-- When the validating loop accepts a record, the new balance is exactly
what the unvalidated history update would compute. -/
theorem processTx_ok_step {b : Int} {tx : Transaction} {b' : Int}
    (h : processTx b tx = .ok b') : b' = historyStep b tx := by
  by_cases hamt : tx.amount < 0
  · simp [processTx, hamt] at h
  · cases htx : tx.transaction_type
    · simp [processTx, hamt, htx] at h
      simp [historyStep, htx, ← h]
    · by_cases hlt : b < tx.amount
      · simp [processTx, hamt, htx, hlt] at h
      · simp [processTx, hamt, htx, hlt] at h
        simp [historyStep, htx, ← h]

/-- A successful validating fold computes the same total as the unvalidated
left fold of the history updates. -/
theorem balanceFold_foldl {l : List Transaction} {s b : Int}
    (h : balanceFold s l = .ok b) : l.foldl historyStep s = b := by
  induction l generalizing s with
  | nil =>
    cases h
    rfl
  | cons tx rest ih =>
    unfold balanceFold at h
    cases hp : processTx s tx with
    | ok b1 =>
      rw [hp] at h
      simpa [List.foldl, ← processTx_ok_step hp] using ih h
    | error e =>
      rw [hp] at h
      cases h

/-- The transactions in the rendered history are exactly the folded list,
in order. -/
theorem historyFold_map_fst (s : Int) (l : List Transaction) :
    (historyFold s l).map Prod.fst = l := by
  induction l generalizing s with
  | nil => rfl
  | cons tx rest ih =>
    simp only [historyFold, List.map, ih]

/-- The rendered history has one line per folded transaction. -/
theorem historyFold_length (s : Int) (l : List Transaction) :
    (historyFold s l).length = l.length := by
  induction l generalizing s with
  | nil => rfl
  | cons tx rest ih =>
    simp only [historyFold, List.length_cons, ih]

/-- The running balance on line `i` of the rendered history is the start
balance plus the signed sum of the first `i + 1` transactions. -/
theorem historyFold_get_snd (l : List Transaction) (s : Int) (i : Nat)
    (hi : i < (historyFold s l).length) :
    ((historyFold s l).get ⟨i, hi⟩).2 =
      s + ((l.take (i + 1)).map signedAmount).sum := by
  induction l generalizing s i with
  | nil => simp [historyFold] at hi
  | cons tx rest ih =>
    cases i with
    | zero =>
      simp only [historyFold, List.get, List.take, List.map, List.sum_cons,
        List.take_zero, List.map_nil, List.sum_nil, add_zero]
      cases htx : tx.transaction_type <;>
        simp [historyStep, signedAmount, htx]
      omega
    | succ j =>
      simp only [historyFold, List.get, List.take, List.map, List.sum_cons]
      rw [ih]
      cases htx : tx.transaction_type <;>
        simp [historyStep, signedAmount, htx] <;> omega

/-- Taking `getD` of the last element of a cons ignores the outer default. -/
theorem getLast_getD_cons (a : Int) (l : List Int) (d : Int) :
    ((a :: l).getLast?).getD d = (l.getLast?).getD a := by
  induction l generalizing a d with
  | nil => rfl
  | cons b m ih =>
    rw [List.getLast?_cons_cons]
    exact (ih b d).trans (ih b a).symm

/-- The last running balance of the rendered history equals the unvalidated
left fold of all its transactions (with the start balance as default). -/
theorem historyFold_last_snd (l : List Transaction) (s : Int) :
    (((historyFold s l).map Prod.snd).getLast?).getD s = l.foldl historyStep s := by
  induction l generalizing s with
  | nil => rfl
  | cons tx rest ih =>
    simp only [historyFold, List.map, List.foldl]
    rw [getLast_getD_cons]
    exact ih (historyStep s tx)

/-! ### Claims -/

/-- C1: if the left-to-right fold of the matching transactions reaches a
`Withdrawal` whose amount strictly exceeds the running balance accumulated
from the earlier matching records (none of which violated a rule),
`calculate_wallet_balance` returns `InsufficientFunds` with `requested`
equal to that record's amount and `available` equal to the exact
pre-withdrawal running balance, regardless of any later records. -/
theorem claim1_insufficient_funds (txs : List Transaction) (w : String)
    (pre : List Transaction) (tx : Transaction) (post : List Transaction) (b : Int)
    (hf : txs.filter (fun t => t.wallet_address == w) = pre ++ tx :: post)
    (hpre : balanceFold 0 pre = .ok b)
    (hty : tx.transaction_type = .Withdrawal)
    (hlt : b < tx.amount) :
    calculate_wallet_balance txs w = .error (.InsufficientFunds tx.amount b) := by
  have hb : 0 ≤ b := balanceFold_nonneg le_rfl hpre
  have hamt : ¬tx.amount < 0 := by omega
  unfold calculate_wallet_balance
  rw [hf, balanceFold_append, hpre]
  simp [balanceFold, processTx, hamt, hty, hlt]

/-- C1 witness: deposit 50 then withdraw 100 on one wallet yields
`InsufficientFunds` with requested 100 and available 50. -/
theorem claim1_witness :
    calculate_wallet_balance
      [⟨.Deposit, "W", 50⟩, ⟨.Withdrawal, "W", 100⟩] "W" =
      .error (.InsufficientFunds 100 50) :=
  claim1_insufficient_funds _ "W" [⟨.Deposit, "W", 50⟩] ⟨.Withdrawal, "W", 100⟩ [] 50
    (by decide) rfl rfl (by decide)

/-- C2: if some matching record has a negative amount and every earlier
matching record is valid, `calculate_wallet_balance` returns
`InvalidAmount` with that record's amount — for deposits and withdrawals
alike, discarding the partial balance. -/
theorem claim2_invalid_amount (txs : List Transaction) (w : String)
    (pre : List Transaction) (tx : Transaction) (post : List Transaction) (b : Int)
    (hf : txs.filter (fun t => t.wallet_address == w) = pre ++ tx :: post)
    (hpre : balanceFold 0 pre = .ok b)
    (hneg : tx.amount < 0) :
    calculate_wallet_balance txs w = .error (.InvalidAmount tx.amount) := by
  unfold calculate_wallet_balance
  rw [hf, balanceFold_append, hpre]
  simp [balanceFold, processTx, hneg]

/-- C2 witness: after a valid deposit, a withdrawal of -100 fails with
`InvalidAmount (-100)` (the negativity check fires before the
sufficiency check). -/
theorem claim2_witness :
    calculate_wallet_balance
      [⟨.Deposit, "W", 5⟩, ⟨.Withdrawal, "W", -100⟩] "W" =
      .error (.InvalidAmount (-100)) :=
  claim2_invalid_amount _ "W" [⟨.Deposit, "W", 5⟩] ⟨.Withdrawal, "W", -100⟩ [] 5
    (by decide) rfl (by decide)

/-- C3: for a wallet id matched by no transaction in the sequence
(including the empty sequence), `calculate_wallet_balance` returns
`Ok 0`. -/
theorem claim3_no_match (txs : List Transaction) (w : String)
    (h : ∀ tx ∈ txs, tx.wallet_address ≠ w) :
    calculate_wallet_balance txs w = .ok 0 := by
  unfold calculate_wallet_balance
  have hnil : txs.filter (fun t => t.wallet_address == w) = [] := by
    rw [List.filter_eq_nil_iff]
    intro a ha
    simpa using h a ha
  rw [hnil]
  rfl

/-- C3 witness: a ledger holding only wallet A transactions yields
`Ok 0` for wallet B. -/
theorem claim3_witness :
    calculate_wallet_balance [⟨.Deposit, "A", 5⟩] "B" = .ok 0 :=
  claim3_no_match _ "B" (by decide)

/-- C5: noninterference — the result of `calculate_wallet_balance` for a
wallet depends only on the ordered subsequence of transactions with that
wallet id, so any two sequences with the same filtered subsequence give
the same result. -/
theorem claim5_isolation (txs1 txs2 : List Transaction) (w : String)
    (h : txs1.filter (fun t => t.wallet_address == w) =
         txs2.filter (fun t => t.wallet_address == w)) :
    calculate_wallet_balance txs1 w = calculate_wallet_balance txs2 w := by
  unfold calculate_wallet_balance
  rw [h]

/-- C5 witness: interleaving wallet B transactions (even invalid ones)
does not change wallet A's result. -/
theorem claim5_witness :
    calculate_wallet_balance
      [⟨.Deposit, "A", 10⟩, ⟨.Withdrawal, "B", -7⟩, ⟨.Withdrawal, "A", 4⟩] "A" =
    calculate_wallet_balance [⟨.Deposit, "A", 10⟩, ⟨.Withdrawal, "A", 4⟩] "A" :=
  claim5_isolation _ _ "A" (by decide)

/-- C6: order sensitivity — `[Deposit 100, Withdrawal 30]` for one wallet
yields `Ok 70`, while the permuted `[Withdrawal 30, Deposit 100]` yields
`InsufficientFunds` with requested 30 and available 0. -/
theorem claim6_order_sensitivity :
    calculate_wallet_balance
      [⟨.Deposit, "W", 100⟩, ⟨.Withdrawal, "W", 30⟩] "W" = .ok 70 ∧
    calculate_wallet_balance
      [⟨.Withdrawal, "W", 30⟩, ⟨.Deposit, "W", 100⟩] "W" =
      .error (.InsufficientFunds 30 0) :=
  ⟨rfl, rfl⟩

/-- A fold over records that all have amount `0` accepts them all and
leaves the (non-negative) balance unchanged. -/
theorem balanceFold_zero_amounts (l : List Transaction) (b : Int) (hb : 0 ≤ b)
    (hz : ∀ tx ∈ l, tx.amount = 0) : balanceFold b l = .ok b := by
  induction l with
  | nil => rfl
  | cons tx rest ih =>
    have h0 : tx.amount = 0 := hz tx (List.mem_cons_self tx rest)
    have hnb : ¬b < 0 := not_lt.mpr hb
    have hstep : processTx b tx = .ok b := by
      cases htx : tx.transaction_type <;> simp [processTx, h0, htx, hnb]
    simp only [balanceFold, hstep]
    exact ih (fun t ht => hz t (List.mem_cons_of_mem tx ht))

/-- C4: the history rendering performs none of the balance validation —
for every input it completes, lists exactly the matching transactions in
insertion order, and pairs line `i` with the unconditional signed sum
(deposits added, withdrawals subtracted) of the first `i + 1` matching
transactions, even when that sum is negative. -/
theorem claim4_history_unvalidated (txs : List Transaction) (w : String) :
    (print_transaction_history txs w).map Prod.fst =
      txs.filter (fun t => t.wallet_address == w) ∧
    ∀ i (hi : i < (print_transaction_history txs w).length),
      ((print_transaction_history txs w).get ⟨i, hi⟩).2 =
        (((txs.filter (fun t => t.wallet_address == w)).take (i + 1)).map
          signedAmount).sum := by
  refine ⟨historyFold_map_fst 0 _, ?_⟩
  intro i hi
  simpa using historyFold_get_snd (txs.filter (fun t => t.wallet_address == w)) 0 i hi

/-- C4 witness: a lone withdrawal of 100 (which the balance function
would reject) still appears in the history, with running balance -100. -/
theorem claim4_witness :
    ((print_transaction_history [⟨.Withdrawal, "W", 100⟩] "W").get
      ⟨0, Nat.one_pos⟩).2 = -100 := by
  have h := (claim4_history_unvalidated [⟨.Withdrawal, "W", 100⟩] "W").2 0 Nat.one_pos
  simpa [signedAmount] using h

/-- C7: zero-amount transactions are valid — a record with amount `0`
passes both checks given a non-negative pre-record balance and leaves the
balance unchanged, and a sequence of only zero-amount matching records
yields `Ok 0`. -/
theorem claim7_zero_amount :
    (∀ (b : Int) (tx : Transaction), 0 ≤ b → tx.amount = 0 →
      processTx b tx = .ok b) ∧
    (∀ (txs : List Transaction) (w : String),
      (∀ tx ∈ txs, tx.wallet_address = w → tx.amount = 0) →
      calculate_wallet_balance txs w = .ok 0) := by
  constructor
  · intro b tx hb h0
    have hnb : ¬b < 0 := not_lt.mpr hb
    cases htx : tx.transaction_type <;> simp [processTx, h0, htx, hnb]
  · intro txs w hall
    unfold calculate_wallet_balance
    refine balanceFold_zero_amounts _ 0 le_rfl ?_
    intro tx htx
    rw [List.mem_filter] at htx
    exact hall tx htx.1 (by simpa using htx.2)

/-- C7 witness: a zero withdrawal from balance 7 keeps balance 7, and a
ledger of only zero-amount transactions for a wallet yields `Ok 0`. -/
theorem claim7_witness :
    processTx 7 ⟨.Withdrawal, "W", 0⟩ = .ok 7 ∧
    calculate_wallet_balance [⟨.Deposit, "W", 0⟩, ⟨.Withdrawal, "W", 0⟩] "W" = .ok 0 :=
  ⟨claim7_zero_amount.1 7 ⟨.Withdrawal, "W", 0⟩ (by decide) rfl,
   claim7_zero_amount.2 _ "W" (by decide)⟩

/-- C8: every transaction renders exactly as
`"<Kind> of <amount> to <wallet_id>"` with the kind exactly `"Deposit"`
or `"Withdrawal"`; in particular a deposit of 100 to `wallet_1` renders
as `"Deposit of 100 to wallet_1"`. -/
theorem claim8_display_format :
    (∀ tx : Transaction,
      Transaction.render tx =
        (match tx.transaction_type with
          | .Deposit => "Deposit"
          | .Withdrawal => "Withdrawal") ++
          " of " ++ toString tx.amount ++ " to " ++ tx.wallet_address) ∧
    Transaction.render ⟨.Deposit, "wallet_1", 100⟩ = "Deposit of 100 to wallet_1" := by
  constructor
  · intro tx
    cases htx : tx.transaction_type <;>
      simp [Transaction.render, TransactionType.render, htx]
  · rfl

/-- C9: whenever `calculate_wallet_balance` succeeds the returned balance
is non-negative, because every accepted step preserves non-negativity of
the accumulator. -/
theorem claim9_ok_nonneg :
    (∀ (b : Int) (tx : Transaction) (b' : Int),
      0 ≤ b → processTx b tx = .ok b' → 0 ≤ b') ∧
    (∀ (txs : List Transaction) (w : String) (b : Int),
      calculate_wallet_balance txs w = .ok b → 0 ≤ b) :=
  ⟨fun _ _ _ hb h => processTx_nonneg hb h,
   fun _ _ _ h => balanceFold_nonneg le_rfl h⟩

/-- C9 witness: the balance function succeeds with 0 on deposit 3 then
withdraw 3, and the theorem certifies that result is non-negative. -/
theorem claim9_witness :
    calculate_wallet_balance [⟨.Deposit, "W", 3⟩, ⟨.Withdrawal, "W", 3⟩] "W" = .ok 0 ∧
    (0 : Int) ≤ 0 :=
  ⟨rfl, claim9_ok_nonneg.2 [⟨.Deposit, "W", 3⟩, ⟨.Withdrawal, "W", 3⟩] "W" 0 rfl⟩

/-- C10: the two paths agree on success — when `calculate_wallet_balance`
returns `Ok b`, the running balance on the last history line equals `b`
(the default 0 applying exactly when no transaction matches), and with no
matching transactions the history is empty and `b = 0`. -/
theorem claim10_paths_agree (txs : List Transaction) (w : String) (b : Int)
    (h : calculate_wallet_balance txs w = .ok b) :
    lastRunningBalance txs w = b ∧
    (txs.filter (fun t => t.wallet_address == w) = [] →
      print_transaction_history txs w = [] ∧ b = 0) := by
  constructor
  · unfold lastRunningBalance print_transaction_history
    rw [historyFold_last_snd]
    exact balanceFold_foldl h
  · intro hnil
    unfold calculate_wallet_balance at h
    rw [hnil] at h
    have hb : (0 : Int) = b := by simpa [balanceFold] using h
    refine ⟨?_, hb.symm⟩
    unfold print_transaction_history
    rw [hnil]
    rfl

/-- C10 witness: deposit 50 then withdraw 20 yields `Ok 30`, and the last
history line carries running balance 30 as well. -/
theorem claim10_witness :
    lastRunningBalance [⟨.Deposit, "W", 50⟩, ⟨.Withdrawal, "W", 20⟩] "W" = 30 :=
  (claim10_paths_agree [⟨.Deposit, "W", 50⟩, ⟨.Withdrawal, "W", 20⟩] "W" 30 rfl).1
